import Mathlib

/-!
Verification development for the `mvc4kivy` project scaffolding tool.

The Python sources `create_project.py`, `add_view.py` and `remove_view.py`
are shallowly embedded here.  Python strings are modelled as `List Char`
(the tool only manipulates ASCII text), Python exceptions as the
`PyError` type, and the filesystem as an explicit list of path nodes.
All definitions are executable so that concrete program runs can be
evaluated by `decide`.
-/

set_option maxRecDepth 100000
set_option maxHeartbeats 1000000

/-- Python strings are sequences of characters. -/
abbrev PyStr := List Char

/-- The regex character class `[A-Z]` used by the sources (ASCII range). -/
def isUpper (c : Char) : Bool := 'A' ≤ c && c ≤ 'Z'

/-- ASCII lowercase range `[a-z]`. -/
def isLowerAZ (c : Char) : Bool := 'a' ≤ c && c ≤ 'z'

/-- ASCII model of Python `str.lower()`: shifts `A`-`Z` down by 32 and
leaves every other character unchanged.  This agrees with Python exactly
on ASCII strings; Python additionally folds non-ASCII cased letters
(e.g. `É` to `é`), which this model leaves fixed, so any theorem whose
truth needs lowering to be the identity outside `A`-`Z` must restrict
its inputs to ASCII. -/
def pyLower (c : Char) : Char :=
  if isUpper c then Char.ofNat (c.toNat + 32) else c

/-- The inverse shift on `a`-`z`, used only in proofs about injectivity. -/
def pyUpperChar (c : Char) : Char :=
  if isLowerAZ c then Char.ofNat (c.toNat - 32) else c

/-- `str.lower()` applied to a whole string. -/
def lowerStr (s : PyStr) : PyStr := s.map pyLower

/-- The apostrophe character used as quote delimiter by the generated text. -/
def squote : Char := Char.ofNat 39

/-- Wrap a string in apostrophes (as the `'%s'` template pieces do). -/
def q1 (s : PyStr) : PyStr := squote :: s ++ [squote]

/-- Wrap a string in double quotes (as the `"%s"` template pieces do). -/
def q2 (s : PyStr) : PyStr := '"' :: s ++ ['"']

/-- Worker for `re.findall(r"[A-Z][^A-Z]*", name)`: scans left to right,
`cur` holds the reversed characters of the match currently being built
(empty when no match is open).  An uppercase character closes the open
match, if any, and opens a new one; other characters extend the open
match and are skipped otherwise. -/
def findTokensGo : List Char → List Char → List (List Char)
  | [], cur => if cur.isEmpty then [] else [cur.reverse]
  | c :: cs, cur =>
    if isUpper c then
      if cur.isEmpty then findTokensGo cs [c]
      else cur.reverse :: findTokensGo cs [c]
    else
      if cur.isEmpty then findTokensGo cs []
      else findTokensGo cs (c :: cur)

/-- `re.findall(r"[A-Z][^A-Z]*", name)`: the left-to-right non-overlapping
maximal matches of one uppercase letter followed by non-uppercase
characters. -/
def findTokens (name : PyStr) : List (List Char) := findTokensGo name []

/-- `check_camel_case_name_project` from `create_project.py`:
`result = re.findall(r"[A-Z][^A-Z]*", name_project)` followed by
`return False if len(result) == 1 else result`.  `none` models the
Python `False` return; note that an empty match list is returned as-is
(`some []`), which callers treat as falsy. -/
def check_camel_case_name_project (name_project : PyStr) :
    Option (List (List Char)) :=
  let result := findTokens name_project
  if result.length = 1 then none else some result

/-- Python truthiness test `not module_name` applied by both `main`
functions to the result of `check_camel_case_name_project`: `False` and
the empty list are falsy. -/
def pyFalsy (r : Option (List (List Char))) : Bool :=
  match r with
  | none => true
  | some ts => ts.isEmpty

/-- Python `sep.join(parts)`. -/
def pyJoin (sep : PyStr) (parts : List PyStr) : PyStr :=
  List.intercalate sep parts

/-- `"_".join([name.lower() for name in module_name])` from both `main`
functions: derives the module name from the token list. -/
def moduleNameOf (tokens : List (List Char)) : PyStr :=
  pyJoin ['_'] (tokens.map lowerStr)

/-- Two-argument `posixpath.join`: a component starting with `/` resets
the path, otherwise a `/` separator is inserted unless one is already
present or the accumulated path is empty. -/
def posixJoin (a b : PyStr) : PyStr :=
  if b.head? = some '/' then b
  else if a = [] then a ++ b
  else if a.getLast? = some '/' then a ++ b
  else a ++ '/' :: b

/-- Three-argument `posixpath.join('./View', name, file)` as used by the
registry synchronizers and the project generator. -/
def posixJoin3 (a b c : PyStr) : PyStr := posixJoin (posixJoin a b) c

/-- Python slice `name[-6:]` (the whole string when shorter than 6). -/
def lastSix (name : PyStr) : PyStr := name.drop (name.length - 6)

/-- The token `"Screen"` required as final token of a screen name. -/
def screenTok : PyStr := "Screen".toList

/-- The filter from both `update_screens_data` loops:
`res and len(res) > 1 and res[-1] == "Screen"`. -/
def screenDirFilter (res : List (List Char)) : Prop :=
  res ≠ [] ∧ res.length > 1 ∧ res.getLast? = some screenTok

instance (res : List (List Char)) : Decidable (screenDirFilter res) := by
  unfold screenDirFilter; infer_instance

/-- One formatted body entry, the template
`"\n    '%s': {\n        'model': %s,\n        'controller': %s,\n        'view': %s,\n        'kv': %s\n    },\n"`
shared verbatim by `add_view.update_screens_data` and
`remove_view.update_screens_data`. -/
def screen_entry_tmpl (key model controller view kv : PyStr) : PyStr :=
  "\n    ".toList ++ q1 key ++ ": \x7b".toList ++
  "\n        ".toList ++ q1 "model".toList ++ ": ".toList ++ model ++ ",".toList ++
  "\n        ".toList ++ q1 "controller".toList ++ ": ".toList ++ controller ++ ",".toList ++
  "\n        ".toList ++ q1 "view".toList ++ ": ".toList ++ view ++ ",".toList ++
  "\n        ".toList ++ q1 "kv".toList ++ ": ".toList ++ kv ++
  "\n    \x7d,\n".toList

/-- The entry emitted for directory `name` with token list `res`:
key `' '.join(res).lower()`, classes `f"{name}Model"` etc., and
`kv = f'"{posixpath.join("./View", name, f"{snake_case.join(res).lower()}.kv")}"'`
with `snake_case = "_"`. -/
def screen_entry_for (name : PyStr) (res : List (List Char)) : PyStr :=
  screen_entry_tmpl
    (lowerStr (pyJoin [' '] res))
    (name ++ "Model".toList)
    (name ++ "Controller".toList)
    (name ++ "View".toList)
    (q2 (posixJoin3 "./View".toList name
      (lowerStr (pyJoin ['_'] res) ++ ".kv".toList)))

/-- The three import lines appended by `add_view` and removed by
`remove_view` for a screen module. -/
def modelImportLine (module_name name_view : PyStr) : PyStr :=
  "from Model.".toList ++ module_name ++ " import ".toList ++
    name_view ++ "Model".toList

/-- `f"from Controller.{module_name} import {name_view}Controller"`. -/
def controllerImportLine (module_name name_view : PyStr) : PyStr :=
  "from Controller.".toList ++ module_name ++ " import ".toList ++
    name_view ++ "Controller".toList

/-- `f"from View.{name_view}.{module_name} import {name_view}View"`. -/
def viewImportLine (name_view module_name : PyStr) : PyStr :=
  "from View.".toList ++ name_view ++ ".".toList ++ module_name ++
    " import ".toList ++ name_view ++ "View".toList

/-- Python exceptions and aborts observable in the embedded programs.
`registryConsistencyError` is modelled from the spec only: the spec's
error taxonomy names it for the remove-path import inconsistency, but no
code in the repository defines or raises it. -/
inductive PyError where
  | valueError
  | fileNotFoundError
  | isADirectoryError
  | systemExit
  | registryConsistencyError
deriving DecidableEq

/-- Python `list.remove(x)`: drops the first occurrence of `x`, or fails
with `ValueError` when `x` is absent. `none` models the raised error. -/
def pyRemove (l : List PyStr) (x : PyStr) : Option (List PyStr) :=
  if x ∈ l then some (l.erase x) else none

/-- A directory listing as consumed by the `update_screens_data` loops:
each element is a directory-entry name paired with its
`os.path.isdir` status. -/
abbrev Listing := List (PyStr × Bool)

/-- Greedy suffix placement for a regex branch `PRE.*SUF`: the largest
offset `k` into `seg` (the run of non-newline characters, since `.` does
not match a newline) at which `SUF` occurs, or `none`. -/
def lastMatchEnd (suf seg : PyStr) : Option Nat :=
  (List.range (seg.length + 1)).reverse.find?
    (fun k => suf.isPrefixOf (seg.drop k))

/-- Try to match one alternation branch `PRE.*SUF` of the import regex at
the current position; returns the total length of the match. -/
def matchImportAt (pre suf cs : PyStr) : Option Nat :=
  if pre.isPrefixOf cs then
    let seg := (cs.drop pre.length).takeWhile (fun c => c != '\n')
    match lastMatchEnd suf seg with
    | some k => some (pre.length + k + suf.length)
    | none => none
  else none

/-- The three alternation branches of
`"from Model.*Model|from Controller.*Controller|from View.*View"`,
tried left to right as Python `re` does. -/
def matchAnyImport (cs : PyStr) : Option Nat :=
  match matchImportAt "from Model".toList "Model".toList cs with
  | some n => some n
  | none =>
    match matchImportAt "from Controller".toList "Controller".toList cs with
    | some n => some n
    | none => matchImportAt "from View".toList "View".toList cs

/-- Fuel-indexed scanner for `re.findall` over the import pattern: at
each position, emit the match found there and resume after it, otherwise
advance one character.  The fuel only bounds the recursion depth; since
every step consumes at least one character, `fuel = cs.length` (as used
by `findallImports`) never truncates the scan. -/
def findallImportsGo : Nat → PyStr → List PyStr
  | 0, _ => []
  | _, [] => []
  | fuel + 1, c :: cs =>
    match matchAnyImport (c :: cs) with
    | some n => (c :: cs).take n :: findallImportsGo fuel ((c :: cs).drop n)
    | none => findallImportsGo fuel cs

/-- `re.findall("from Model.*Model|from Controller.*Controller|from View.*View", screen_module)`
from both `update_screens_data` functions. -/
def findallImports (cs : PyStr) : List PyStr := findallImportsGo cs.length cs

namespace AddView

/-- The comment block `screns_comment` from `add_view.py`. -/
def screns_comment : PyStr :=
  "# The screen".toList ++ [squote] ++
  "s dictionary contains the objects of the models and controllers\n# of the screens of the application.\n".toList

/-- The body-derivation loop of `add_view.update_screens_data`
(lines 151-174): for every directory entry, when
`res and len(res) > 1 and res[-1] == "Screen"` holds for
`res = re.findall(r"[A-Z][^A-Z]*", name)`, append the formatted entry to
the accumulated `screens` string. -/
def screens_body (listing : Listing) : PyStr :=
  listing.foldl
    (fun screens e =>
      if e.2 then
        let res := findTokens e.1
        if screenDirFilter res then screens ++ screen_entry_for e.1 res
        else screens
      else screens)
    []

/-- `add_view.update_screens_data` as a pure function: `text` is the
current content of `View/screens.py`, `listing` the directory listing of
the `View` folder (after the new view's directory was created), and the
result is the rewritten file content
`screens_data % ("\n".join(imports), screens)` with
`screens_data = "%s\n\nscreens = {%s\n}\n"`. -/
def update_screens_data (text : PyStr) (listing : Listing)
    (name_view module_name : PyStr) : PyStr :=
  let imports := findallImports text
  let screens := screens_body listing
  let imports := imports ++
    [modelImportLine module_name name_view,
     controllerImportLine module_name name_view,
     viewImportLine name_view module_name]
  let imports := screns_comment :: imports
  pyJoin "\n".toList imports ++ "\n\nscreens = \x7b".toList ++ screens ++
    "\n\x7d\n".toList

end AddView

/-- The result of running a fallible embedded program: a value, or a
raised Python exception. -/
inductive PyResult (α : Type) where
  | ok (val : α)
  | error (e : PyError)
deriving DecidableEq

namespace RemoveView

/-- The comment block `screens_comment` from `remove_view.py` (same text
as `add_view.screns_comment`). -/
def screens_comment : PyStr :=
  "# The screen".toList ++ [squote] ++
  "s dictionary contains the objects of the models and controllers\n# of the screens of the application.\n".toList

/-- The body-derivation loop of `remove_view.update_screens_data`
(lines 79-102), textually identical to the loop in
`add_view.update_screens_data`. -/
def screens_body (listing : Listing) : PyStr :=
  listing.foldl
    (fun screens e =>
      if e.2 then
        let res := findTokens e.1
        if screenDirFilter res then screens ++ screen_entry_for e.1 res
        else screens
      else screens)
    []

/-- `remove_view.update_screens_data` as a pure function.  The three
`imports.remove(...)` calls raise `ValueError` when the expected line is
absent, in which case the final write is never reached; otherwise the
result is `screens_data % ("\n".join(imports), screens)` with
`screens_data = "%s\n\nscreens = {%s\n}"` (no trailing newline). -/
def update_screens_data (text : PyStr) (listing : Listing)
    (name_view module_name : PyStr) : PyResult PyStr :=
  let imports := findallImports text
  let screens := screens_body listing
  match pyRemove imports (modelImportLine module_name name_view) with
  | none => .error .valueError
  | some imports =>
    match pyRemove imports (controllerImportLine module_name name_view) with
    | none => .error .valueError
    | some imports =>
      match pyRemove imports (viewImportLine name_view module_name) with
      | none => .error .valueError
      | some imports =>
        .ok (pyJoin "\n".toList (screens_comment :: imports) ++
          "\n\nscreens = \x7b".toList ++ screens ++ "\n\x7d".toList)

end RemoveView

namespace CreateProject

/-- The initial value of the accumulator `temp_screens_imports` in
`create_project.py`: a comment block followed by two blank lines. -/
def temp_screens_imports_init : PyStr :=
  "# The screens dictionary contains the objects of the models and controllers\n# of the screens of the application.\n\n\n".toList

/-- The import lines appended to `temp_screens_imports` by
`create_screens_data` for one screen. -/
def screens_imports_fragment (name_screen module_name : PyStr) : PyStr :=
  modelImportLine module_name name_screen ++ "\n".toList ++
  controllerImportLine module_name name_screen ++ "\n".toList ++
  viewImportLine name_screen module_name ++ "\n".toList

/-- The entry appended to `temp_screens_data` by `create_screens_data`
for one screen: the template
`'\n    %s: {\n        "model": %s,\n        "controller": %s,\n        "view": %s,\n        "kv": %s\n    },\n'`
with key `f'"{" ".join(module_name.split("_"))}"'`. -/
def screens_data_fragment (name_screen module_name : PyStr) : PyStr :=
  "\n    ".toList ++ q2 (pyJoin [' '] (module_name.splitOn '_')) ++
    ": \x7b".toList ++
  "\n        ".toList ++ q2 "model".toList ++ ": ".toList ++
    name_screen ++ "Model,".toList ++
  "\n        ".toList ++ q2 "controller".toList ++ ": ".toList ++
    name_screen ++ "Controller,".toList ++
  "\n        ".toList ++ q2 "view".toList ++ ": ".toList ++
    name_screen ++ "View,".toList ++
  "\n        ".toList ++ q2 "kv".toList ++ ": ".toList ++
    q2 (posixJoin3 "./View".toList name_screen
      (module_name ++ ".kv".toList)) ++
  "\n    \x7d,\n".toList

/-- `create_module_screens` output for a list of `(name, module)` screen
pairs processed in order by `create_screens_data`:
`"%s\nscreens = {%s}" % (temp_screens_imports, temp_screens_data)`. -/
def create_module_screens_text (screens : List (PyStr × PyStr)) : PyStr :=
  (temp_screens_imports_init ++
    (screens.map (fun p => screens_imports_fragment p.1 p.2)).flatten) ++
  "\n".toList ++ "screens = \x7b".toList ++
  (screens.map (fun p => screens_data_fragment p.1 p.2)).flatten ++
  "\x7d".toList

end CreateProject

/-- A filesystem node: a path (list of name components, relative to the
project root) plus whether it is a directory. File contents are not
stored here; the only file content the programs read back is
`View/screens.py`, carried separately by `ProjState`. -/
structure FsNode where
  path : List PyStr
  isDir : Bool
deriving DecidableEq

/-- `os.listdir`: the names of the direct children of directory `d`, in
filesystem order. -/
def listdirAt (fs : List FsNode) (d : List PyStr) : List PyStr :=
  fs.filterMap (fun nd =>
    match nd.path.drop d.length with
    | [x] => if nd.path.take d.length = d then some x else none
    | _ => none)

/-- `os.path.isdir`. -/
def isDirAt (fs : List FsNode) (p : List PyStr) : Bool :=
  fs.any (fun nd => nd.path = p && nd.isDir)

/-- `os.path.exists`. -/
def existsAt (fs : List FsNode) (p : List PyStr) : Bool :=
  fs.any (fun nd => nd.path = p)

/-- The path component `"View"`. -/
def viewSeg : PyStr := "View".toList

/-- The directory listing of `View` paired with each entry's
`os.path.isdir` status — exactly what the `update_screens_data` loops
consume. -/
def viewListing (fs : List FsNode) : Listing :=
  (listdirAt fs [viewSeg]).map (fun name => (name, isDirAt fs [viewSeg, name]))

/-- `shutil.rmtree`: removes the directory and everything below it;
raises `FileNotFoundError` when the path does not exist. -/
def rmtree (fs : List FsNode) (p : List PyStr) :
    PyResult (List FsNode) :=
  if existsAt fs p then
    .ok (fs.filter (fun nd => !(p.isPrefixOf nd.path)))
  else .error .fileNotFoundError

/-- `os.remove`: deletes a file; raises `FileNotFoundError` when the
path does not exist and `IsADirectoryError` when it is a directory. -/
def osRemove (fs : List FsNode) (p : List PyStr) :
    PyResult (List FsNode) :=
  match fs.find? (fun nd => nd.path = p) with
  | none => .error .fileNotFoundError
  | some nd =>
    if nd.isDir then .error .isADirectoryError
    else .ok (fs.filter (fun nd => nd.path ≠ p))

/-- The whole observable state of a project: its filesystem tree and the
content of `View/screens.py`. -/
structure ProjState where
  fs : List FsNode
  registry : PyStr
deriving DecidableEq

namespace RemoveView

/-- `remove_view.remove_view`: `rmtree(View/<name>)` followed by
`os.remove(View/<name>/Controller/components)` and
`os.remove(View/<name>/Model/<module_name>)`.  Returns the filesystem
as mutated so far together with the first raised exception, if any. -/
def remove_view (fs : List FsNode) (name_screen module_name : PyStr) :
    List FsNode × Option PyError :=
  let path_to_view := [viewSeg, name_screen]
  let path_to_controller :=
    path_to_view ++ ["Controller".toList, "components".toList]
  let path_to_model := path_to_view ++ ["Model".toList, module_name]
  match rmtree fs path_to_view with
  | .error e => (fs, some e)
  | .ok fs1 =>
    match osRemove fs1 path_to_controller with
    | .error e => (fs1, some e)
    | .ok fs2 =>
      match osRemove fs2 path_to_model with
      | .error e => (fs2, some e)
      | .ok fs3 => (fs3, none)

/-- `remove_view.main`: validations in source order (project existence,
`Screen` suffix, screen-directory presence, camel-case check), then
`remove_view`, then `update_screens_data`.  A `parser.error` abort is
modelled as `systemExit` with the state untouched; a crash in
`remove_view` leaves the registry file unwritten. -/
def main (s : ProjState) (name_view : PyStr) : ProjState × Option PyError :=
  if ¬ existsAt s.fs [] then (s, some .systemExit)
  else if lastSix name_view ≠ screenTok then (s, some .systemExit)
  else if name_view ∉ listdirAt s.fs [viewSeg] then (s, some .systemExit)
  else if pyFalsy (check_camel_case_name_project name_view) then
    (s, some .systemExit)
  else
    let tokens := (check_camel_case_name_project name_view).getD []
    let module_name := moduleNameOf tokens
    match remove_view s.fs name_view module_name with
    | (fs1, some e) => ({ s with fs := fs1 }, some e)
    | (fs1, none) =>
      match update_screens_data s.registry (viewListing fs1)
          name_view module_name with
      | .error e => ({ s with fs := fs1 }, some e)
      | .ok text => ({ fs := fs1, registry := text }, none)

end RemoveView

namespace AddView

/-- The filesystem effect of `create_model`, `create_controller` and
`create_view` (non-responsive branch) on an existing project: one module
file under `Model`, one under `Controller`, and the new view package
`View/<name>` with its `components` directory, `__init__.py`, module
file and kv file.  Only nodes relevant to later directory listings are
modelled; all of them sit under `Model`, `Controller` or
`View/<name>`. -/
def createdNodes (name_view module_name : PyStr) : List FsNode :=
  [⟨["Model".toList, module_name ++ ".py".toList], false⟩,
   ⟨["Controller".toList, module_name ++ ".py".toList], false⟩,
   ⟨[viewSeg, name_view], true⟩,
   ⟨[viewSeg, name_view, "components".toList], true⟩,
   ⟨[viewSeg, name_view, "__init__.py".toList], false⟩,
   ⟨[viewSeg, name_view, module_name ++ ".py".toList], false⟩,
   ⟨[viewSeg, name_view, module_name ++ ".kv".toList], false⟩,
   ⟨[viewSeg, name_view, "components".toList, "__init__.py".toList], false⟩]

/-- `add_view.main`: validations in source order (project existence,
`Screen` suffix, duplicate view directory, camel-case check), then the
model/controller/view creation, then `update_screens_data` rewrites
`View/screens.py` from the post-creation directory listing. -/
def main (s : ProjState) (name_view : PyStr) : ProjState × Option PyError :=
  if ¬ existsAt s.fs [] then (s, some .systemExit)
  else if lastSix name_view ≠ screenTok then (s, some .systemExit)
  else if name_view ∈ listdirAt s.fs [viewSeg] then (s, some .systemExit)
  else if pyFalsy (check_camel_case_name_project name_view) then
    (s, some .systemExit)
  else
    let tokens := (check_camel_case_name_project name_view).getD []
    let module_name := moduleNameOf tokens
    let fs1 := s.fs ++ createdNodes name_view module_name
    let text := update_screens_data s.registry (viewListing fs1)
      name_view module_name
    ({ fs := fs1, registry := text }, none)

end AddView

/-- A string matching the pattern `[A-Z][^A-Z]*`: one uppercase letter
followed by non-uppercase characters. -/
def tokenShape (t : List Char) : Prop :=
  ∃ h rest, t = h :: rest ∧ isUpper h = true ∧ ∀ c ∈ rest, isUpper c = false

lemma length_dropWhile_le (p : Char → Bool) (l : List Char) :
    (l.dropWhile p).length ≤ l.length := by
  induction l with
  | nil => simp [List.dropWhile]
  | cons c cs ih =>
    rw [List.dropWhile]
    cases p c
    · simp
    · simp; omega

lemma flatten_findTokensGo (cs : List Char) :
    ∀ cur, cur ≠ [] → (findTokensGo cs cur).flatten = cur.reverse ++ cs := by
  induction cs with
  | nil =>
    intro cur h
    simp [findTokensGo, List.isEmpty_iff, h]
  | cons c cs ih =>
    intro cur h
    rw [findTokensGo]
    cases hu : isUpper c <;> simp only [List.isEmpty_iff, h, if_false, Bool.false_eq_true, if_true]
    · rw [ih (c :: cur) (by simp)]
      simp
    · rw [List.flatten_cons, ih [c] (by simp)]
      simp

lemma flatten_findTokens (cs : List Char) :
    (findTokens cs).flatten = cs.dropWhile (fun c => !isUpper c) := by
  unfold findTokens
  induction cs with
  | nil => simp [findTokensGo]
  | cons c cs ih =>
    rw [findTokensGo, List.dropWhile]
    cases hu : isUpper c
    · simpa using ih
    · simp only [List.isEmpty_nil, if_true, Bool.not_true, Bool.false_eq_true]
      have : findTokensGo cs [c] = findTokensGo cs [c] := rfl
      simpa using flatten_findTokensGo cs [c] (by simp)

lemma shape_findTokensGo (cs : List Char) :
    ∀ cur, (cur ≠ [] → tokenShape cur.reverse) →
      ∀ t ∈ findTokensGo cs cur, tokenShape t := by
  induction cs with
  | nil =>
    intro cur hcur t ht
    rw [findTokensGo] at ht
    by_cases h : cur = []
    · simp [h] at ht
    · simp [List.isEmpty_iff, h] at ht
      exact ht ▸ hcur h
  | cons c cs ih =>
    intro cur hcur t ht
    rw [findTokensGo] at ht
    cases hu : isUpper c <;> rw [hu] at ht <;>
      simp only [Bool.false_eq_true, if_false, if_true] at ht
    · by_cases h : cur = []
      · simp [h] at ht
        exact ih [] (by simp) t ht
      · simp only [List.isEmpty_iff, h, if_false] at ht
        refine ih (c :: cur) ?_ t ht
        intro _
        obtain ⟨hd, rest, he, hh, hr⟩ := hcur h
        refine ⟨hd, rest ++ [c], ?_, hh, ?_⟩
        · simp [he]
        · intro d hd'
          rcases List.mem_append.mp hd' with h1 | h1
          · exact hr d h1
          · simp at h1; subst h1; exact hu
    · by_cases h : cur = []
      · simp only [h, List.isEmpty_nil, if_true] at ht
        exact ih [c] (fun _ => ⟨c, [], by simp, hu, by simp⟩) t ht
      · simp only [List.isEmpty_iff, h, if_false, List.mem_cons] at ht
        rcases ht with ht | ht
        · exact ht ▸ hcur h
        · exact ih [c] (fun _ => ⟨c, [], by simp, hu, by simp⟩) t ht

lemma shape_findTokens (cs : List Char) :
    ∀ t ∈ findTokens cs, tokenShape t :=
  shape_findTokensGo cs [] (by simp)

lemma dropWhile_flatten_shaped (ts : List (List Char))
    (h : ∀ t ∈ ts, tokenShape t) :
    ts.flatten.dropWhile (fun d => !isUpper d) = ts.flatten := by
  cases ts with
  | nil => simp
  | cons t ts =>
    obtain ⟨hd, rest, he, hh, _⟩ := h t (by simp)
    subst he
    simp [List.dropWhile_cons, hh]

lemma findTokensGo_closes (cs : List Char) :
    ∀ cur, cur ≠ [] →
      findTokensGo cs cur =
        (cur.reverse ++ cs.takeWhile (fun c => !isUpper c)) ::
          findTokensGo (cs.dropWhile (fun c => !isUpper c)) [] := by
  induction cs with
  | nil =>
    intro cur h
    simp [findTokensGo, List.isEmpty_iff, h]
  | cons c cs ih =>
    intro cur h
    rw [findTokensGo, List.takeWhile, List.dropWhile]
    cases hu : isUpper c <;>
      simp only [List.isEmpty_iff, h, if_false, Bool.not_false, Bool.not_true,
        Bool.false_eq_true, if_true]
    · rw [ih (c :: cur) (by simp)]
      simp
    · simp [findTokensGo, hu]

lemma findTokens_cons_upper (c : Char) (cs : List Char) (h : isUpper c = true) :
    findTokens (c :: cs) =
      (c :: cs.takeWhile (fun d => !isUpper d)) ::
        findTokens (cs.dropWhile (fun d => !isUpper d)) := by
  unfold findTokens
  rw [findTokensGo]
  simp only [h, if_true, List.isEmpty_nil]
  rw [findTokensGo_closes cs [c] (by simp)]
  rfl

lemma findTokens_cons_nonupper (c : Char) (cs : List Char)
    (h : isUpper c = false) : findTokens (c :: cs) = findTokens cs := by
  unfold findTokens
  rw [findTokensGo]
  simp [h]

lemma takeWhile_append_stop (p : Char → Bool) (l1 l2 : List Char)
    (h1 : ∀ c ∈ l1, p c = true)
    (h2 : ∀ x xs, l2 = x :: xs → p x = false) :
    (l1 ++ l2).takeWhile p = l1 := by
  induction l1 with
  | nil =>
    cases l2 with
    | nil => simp
    | cons x xs => simp [List.takeWhile_cons, h2 x xs rfl]
  | cons c cs ih =>
    simp only [List.cons_append, List.takeWhile_cons, h1 c (by simp), if_true]
    rw [ih (fun d hd => h1 d (by simp [hd]))]

lemma dropWhile_append_stop (p : Char → Bool) (l1 l2 : List Char)
    (h1 : ∀ c ∈ l1, p c = true)
    (h2 : ∀ x xs, l2 = x :: xs → p x = false) :
    (l1 ++ l2).dropWhile p = l2 := by
  induction l1 with
  | nil =>
    cases l2 with
    | nil => simp
    | cons x xs => simp [List.dropWhile_cons, h2 x xs rfl]
  | cons c cs ih =>
    simp only [List.cons_append, List.dropWhile_cons, h1 c (by simp), if_true]
    exact ih (fun d hd => h1 d (by simp [hd]))

lemma flatten_shaped_head (ts : List (List Char))
    (h : ∀ t ∈ ts, tokenShape t) :
    ∀ x xs, ts.flatten = x :: xs → isUpper x = true := by
  intro x xs hx
  cases ts with
  | nil => simp at hx
  | cons t ts =>
    obtain ⟨hd, rest, he, hh, _⟩ := h t (by simp)
    rw [he, List.flatten_cons] at hx
    simp only [List.cons_append, List.cons.injEq] at hx
    exact hx.1 ▸ hh

lemma findTokens_unique :
    ∀ (n : Nat) (cs : List Char) (ts : List (List Char)), cs.length ≤ n →
      (∀ t ∈ ts, tokenShape t) →
      ts.flatten = cs.dropWhile (fun c => !isUpper c) →
      ts = findTokens cs := by
  intro n
  induction n with
  | zero =>
    intro cs ts hn hshape hflat
    have : cs = [] := List.length_eq_zero.mp (Nat.le_zero.mp hn)
    subst this
    simp only [List.dropWhile_nil] at hflat
    cases ts with
    | nil => simp [findTokens, findTokensGo]
    | cons t ts =>
      obtain ⟨hd, rest, he, _, _⟩ := hshape t (by simp)
      subst he
      simp at hflat
  | succ n ih =>
    intro cs ts hn hshape hflat
    cases cs with
    | nil =>
      simp only [List.dropWhile_nil] at hflat
      cases ts with
      | nil => simp [findTokens, findTokensGo]
      | cons t ts =>
        obtain ⟨hd, rest, he, _, _⟩ := hshape t (by simp)
        subst he
        simp at hflat
    | cons c cs' =>
      cases hu : isUpper c with
      | false =>
        rw [findTokens_cons_nonupper c cs' hu]
        rw [List.dropWhile_cons, hu] at hflat
        simp only [Bool.not_false, if_true] at hflat
        exact ih cs' ts (by simpa using Nat.le_of_succ_le_succ hn) hshape hflat
      | true =>
        rw [List.dropWhile_cons, hu] at hflat
        simp only [Bool.not_true, Bool.false_eq_true, if_false] at hflat
        cases ts with
        | nil => simp at hflat
        | cons t ts' =>
          obtain ⟨hd, rest, he, hh, hr⟩ := hshape t (by simp)
          subst he
          simp only [List.flatten_cons, List.cons_append, List.cons.injEq] at hflat
          obtain ⟨rfl, hflat⟩ := hflat
          have hcs : cs' = rest ++ ts'.flatten := hflat.symm
          have hshapes' : ∀ t ∈ ts', tokenShape t :=
            fun t ht => hshape t (by simp [ht])
          have hall : ∀ d ∈ rest, (fun d => !isUpper d) d = true := by
            intro d hd2
            simp [hr d hd2]
          have hstop : ∀ x xs, ts'.flatten = x :: xs →
              (fun d => !isUpper d) x = false := by
            intro x xs hx
            simp [flatten_shaped_head ts' hshapes' x xs hx]
          have htake : cs'.takeWhile (fun d => !isUpper d) = rest := by
            rw [hcs]
            exact takeWhile_append_stop _ rest ts'.flatten hall hstop
          have hdrop : cs'.dropWhile (fun d => !isUpper d) = ts'.flatten := by
            rw [hcs]
            exact dropWhile_append_stop _ rest ts'.flatten hall hstop
          rw [findTokens_cons_upper _ cs' hu, htake]
          have hlen : (cs'.dropWhile (fun d => !isUpper d)).length ≤ n := by
            have h3 := length_dropWhile_le (fun d => !isUpper d) cs'
            simp only [List.length_cons] at hn
            omega
          rw [← ih (cs'.dropWhile (fun d => !isUpper d)) ts' hlen hshapes'
            (by rw [hdrop, dropWhile_flatten_shaped ts' hshapes'])]

lemma lowerStr_append (a b : PyStr) :
    lowerStr (a ++ b) = lowerStr a ++ lowerStr b := by
  simp [lowerStr]

lemma lowerStr_pyJoin (sep : PyStr) (hsep : lowerStr sep = sep) :
    ∀ parts, lowerStr (pyJoin sep parts) = pyJoin sep (parts.map lowerStr)
  | [] => by simp [pyJoin, List.intercalate, lowerStr]
  | [x] => by simp [pyJoin, List.intercalate, lowerStr]
  | x :: y :: tl => by
    have ih := lowerStr_pyJoin sep hsep (y :: tl)
    simp only [pyJoin, List.intercalate] at ih ⊢
    rw [show List.intersperse sep (x :: y :: tl) =
      x :: sep :: List.intersperse sep (y :: tl) from rfl]
    simp only [List.flatten_cons, lowerStr_append, hsep]
    rw [ih]
    simp

/-- Claim C6 — the name tokenizer.  `findTokens` is exactly the list of
left-to-right non-overlapping matches of `[A-Z][^A-Z]*`: every returned
token matches the pattern, their concatenation is the input minus its
non-uppercase prefix (so matches are maximal and in order), and any list
of pattern-shaped tokens with that concatenation property is the
returned one.  `check_camel_case_name_project` reports failure exactly
when there is one single token, and the three literal examples evaluate
as the spec states. -/
theorem tokenize_spec :
    (∀ name : PyStr,
      (∀ t ∈ findTokens name, tokenShape t) ∧
      (findTokens name).flatten = name.dropWhile (fun c => !isUpper c) ∧
      (∀ ts : List (List Char), (∀ t ∈ ts, tokenShape t) →
        ts.flatten = name.dropWhile (fun c => !isUpper c) →
        ts = findTokens name)) ∧
    (∀ name : PyStr,
      check_camel_case_name_project name = none ↔
        (findTokens name).length = 1) ∧
    findTokens "MainScreen".toList = ["Main".toList, "Screen".toList] ∧
    findTokens "UserProfileScreen".toList =
      ["User".toList, "Profile".toList, "Screen".toList] ∧
    check_camel_case_name_project "Screen".toList = none := by
  refine ⟨fun name => ⟨shape_findTokens name, flatten_findTokens name,
    fun ts hs hf => findTokens_unique name.length name ts le_rfl hs
      (by rw [hf])⟩, fun name => ?_, by decide, by decide, by decide⟩
  unfold check_camel_case_name_project
  by_cases h : (findTokens name).length = 1 <;> simp [h]

/-- Boolean version of `tokenShape`, for concrete evaluation. -/
def tokenShapeB : List Char → Bool
  | [] => false
  | c :: rest => isUpper c && rest.all (fun d => !isUpper d)

lemma tokenShape_iff (t : List Char) : tokenShape t ↔ tokenShapeB t = true := by
  cases t with
  | nil =>
    simp only [tokenShapeB, tokenShape]
    constructor
    · rintro ⟨h, r, he, _, _⟩; simp at he
    · intro h; simp at h
  | cons c rest =>
    simp only [tokenShapeB, tokenShape, Bool.and_eq_true, List.all_eq_true]
    constructor
    · rintro ⟨h, r, he, hh, hr⟩
      injection he with h1 h2
      subst h1; subst h2
      exact ⟨hh, fun d hd => by simp [hr d hd]⟩
    · rintro ⟨h1, h2⟩
      exact ⟨c, rest, rfl, h1, fun d hd => by
        have := h2 d hd; simpa using this⟩

instance (t : List Char) : Decidable (tokenShape t) :=
  decidable_of_iff _ (tokenShape_iff t).symm

/-- Witness for `tokenize_spec`: the uniqueness component applied at a
concrete decomposition. -/
theorem tokenize_spec_witness :
    ["Ab".toList, "Cd".toList] = findTokens "xAbCd".toList :=
  (tokenize_spec.1 "xAbCd".toList).2.2 ["Ab".toList, "Cd".toList]
    (by decide) (by decide)

/-- Claim C8 — the derivation functions.  The module name computed by
both `main` functions is the underscore-join of the lower-cased tokens
(`moduleNameOf` is literally that formula); the loop-level derivations
`"_".join(res).lower()` and `' '.join(res).lower()` agree with the
underscore-join (resp. space-join) of the lower-cased tokens; and the
literal `UserProfileScreen` examples give `user_profile_screen` and
`user profile screen`. -/
theorem derivation_functions_spec :
    (∀ ts : List (List Char),
      moduleNameOf ts = pyJoin ['_'] (ts.map lowerStr)) ∧
    (∀ ts : List (List Char),
      lowerStr (pyJoin ['_'] ts) = moduleNameOf ts) ∧
    (∀ ts : List (List Char),
      lowerStr (pyJoin [' '] ts) = pyJoin [' '] (ts.map lowerStr)) ∧
    moduleNameOf (findTokens "UserProfileScreen".toList) =
      "user_profile_screen".toList ∧
    lowerStr (pyJoin [' '] (findTokens "UserProfileScreen".toList)) =
      "user profile screen".toList := by
  refine ⟨fun ts => rfl, fun ts => ?_, fun ts => ?_, by decide, by decide⟩
  · rw [lowerStr_pyJoin ['_'] (by decide) ts]; rfl
  · rw [lowerStr_pyJoin [' '] (by decide) ts]

lemma isUpper_toNat_bounds (c : Char) (h : isUpper c = true) :
    65 ≤ c.toNat ∧ c.toNat ≤ 90 := by
  simp only [isUpper, Bool.and_eq_true, decide_eq_true_eq] at h
  obtain ⟨h1, h2⟩ := h
  rw [Char.le_def, UInt32.le_def] at h1 h2
  exact ⟨h1, h2⟩

lemma toNat_ofNat_valid (n : Nat) (h : n.isValidChar) :
    (Char.ofNat n).toNat = n := by
  rw [Char.ofNat, dif_pos h]; rfl

lemma pyLower_toNat (c : Char) (h : isUpper c = true) :
    (pyLower c).toNat = c.toNat + 32 := by
  have hb := isUpper_toNat_bounds c h
  rw [pyLower, if_pos h]
  exact toNat_ofNat_valid _ (Or.inl (by omega))

lemma pyLower_eq_self (c : Char) (h : isUpper c = false) : pyLower c = c := by
  simp [pyLower, h]

lemma eq_of_toNat_eq (c1 c2 : Char) (h : c1.toNat = c2.toNat) : c1 = c2 := by
  rw [← Char.ofNat_toNat c1, ← Char.ofNat_toNat c2, h]

lemma isLowerAZ_of_toNat (c : Char) (h1 : 97 ≤ c.toNat) (h2 : c.toNat ≤ 122) :
    isLowerAZ c = true := by
  simp only [isLowerAZ, Bool.and_eq_true, decide_eq_true_eq]
  rw [Char.le_def, UInt32.le_def, Char.le_def, UInt32.le_def]
  exact ⟨h1, h2⟩

lemma pyUpperChar_pyLower (c : Char) (h : isUpper c = true) :
    pyUpperChar (pyLower c) = c := by
  have hb := isUpper_toNat_bounds c h
  have hl := pyLower_toNat c h
  rw [pyUpperChar, if_pos (isLowerAZ_of_toNat _ (by omega) (by omega))]
  apply eq_of_toNat_eq
  rw [toNat_ofNat_valid _ (Or.inl (by omega)), hl]
  omega

lemma pyLower_ne_underscore (c : Char) (h : c ≠ '_') : pyLower c ≠ '_' := by
  intro hc
  cases hu : isUpper c with
  | false => exact h (by rwa [pyLower_eq_self c hu] at hc)
  | true =>
    have := pyLower_toNat c hu
    rw [hc] at this
    have hb := isUpper_toNat_bounds c hu
    have h95 : ('_' : Char).toNat = 95 := by decide
    rw [h95] at this
    omega

lemma map_pyLower_nonupper (rest : List Char)
    (h : ∀ c ∈ rest, isUpper c = false) : rest.map pyLower = rest := by
  induction rest with
  | nil => rfl
  | cons c cs ih =>
    rw [List.map_cons, pyLower_eq_self c (h c (by simp)),
      ih (fun d hd => h d (by simp [hd]))]

/-- Capitalize the first character of a word: the recovery step that
inverts `str.lower()` on a pattern-shaped token. -/
def capFirst : List Char → List Char
  | [] => []
  | c :: rest => pyUpperChar c :: rest

/-- Recover a screen name from a module name: split on underscores and
capitalize each word. -/
def recoverName (m : PyStr) : PyStr :=
  ((m.splitOn '_').map capFirst).flatten

lemma recoverName_moduleName (n : PyStr)
    (hne : findTokens n ≠ [])
    (hcanon : (findTokens n).flatten = n)
    (hund : '_' ∉ n) :
    recoverName (moduleNameOf (findTokens n)) = n := by
  have hshape := shape_findTokens n
  have hts_und : ∀ t ∈ findTokens n, ∀ c ∈ t, c ≠ '_' := by
    intro t ht c hc he
    exact hund (hcanon ▸ List.mem_flatten.mpr ⟨t, ht, he ▸ hc⟩)
  have hlow_und : ∀ l ∈ (findTokens n).map lowerStr, '_' ∉ l := by
    intro l hl hc
    obtain ⟨t, ht, rfl⟩ := List.mem_map.mp hl
    obtain ⟨c, hcmem, hce⟩ := List.mem_map.mp hc
    exact pyLower_ne_underscore c (hts_und t ht c hcmem) hce
  have hsplit : ((moduleNameOf (findTokens n)).splitOn '_') =
      (findTokens n).map lowerStr := by
    unfold moduleNameOf pyJoin
    exact List.splitOn_intercalate ((findTokens n).map lowerStr) '_'
      hlow_und (by simpa using hne)
  unfold recoverName
  rw [hsplit, List.map_map]
  have hcap : ∀ t ∈ findTokens n, (capFirst ∘ lowerStr) t = t := by
    intro t ht
    obtain ⟨hd, rest, rfl, hh, hr⟩ := hshape t ht
    simp only [Function.comp_apply, lowerStr, List.map_cons, capFirst]
    rw [pyUpperChar_pyLower hd hh, map_pyLower_nonupper rest hr]
  rw [List.map_congr_left hcap]
  simpa using hcanon

/-- Counterexample to claim C7: `ABScreen` and `A_bScreen` are two
distinct screen names that both pass validation (they end in `Screen`
and tokenize to at least two tokens) yet derive the same module name
`a_b_screen` — the ScreenName-to-ModuleName mapping of the code is not
injective. -/
theorem module_name_not_injective :
    lastSix "ABScreen".toList = screenTok ∧
    (findTokens "ABScreen".toList).length ≥ 2 ∧
    lastSix "A_bScreen".toList = screenTok ∧
    (findTokens "A_bScreen".toList).length ≥ 2 ∧
    "ABScreen".toList ≠ "A_bScreen".toList ∧
    moduleNameOf (findTokens "ABScreen".toList) =
      moduleNameOf (findTokens "A_bScreen".toList) := by
  decide

/-- Claim C7 (amended): the ScreenName-to-ModuleName mapping is
injective on validated names that consist only of ASCII characters,
consist exactly of their uppercase-boundary tokens (no characters
before the first uppercase letter) and contain no underscore.  Outside
this domain injectivity fails: distinct valid names such as `ABScreen`
and `A_bScreen` share a module name, and beyond ASCII Python's
`str.lower()` folds further case distinctions (so e.g. `AÉScreen` and
`AéScreen` collide), which is why the statement carries the ASCII
hypotheses — on ASCII inputs `pyLower` is exact. -/
theorem module_name_injective_on_canonical (n1 n2 : PyStr)
    (ha1 : ∀ c ∈ n1, c.toNat < 128) (ha2 : ∀ c ∈ n2, c.toNat < 128)
    (hv1 : lastSix n1 = screenTok ∧ (findTokens n1).length ≥ 2)
    (hv2 : lastSix n2 = screenTok ∧ (findTokens n2).length ≥ 2)
    (hc1 : (findTokens n1).flatten = n1)
    (hc2 : (findTokens n2).flatten = n2)
    (hu1 : '_' ∉ n1) (hu2 : '_' ∉ n2)
    (heq : moduleNameOf (findTokens n1) = moduleNameOf (findTokens n2)) :
    n1 = n2 := by
  have h1 := recoverName_moduleName n1
    (by intro h; rw [h] at hv1; simp at hv1) hc1 hu1
  have h2 := recoverName_moduleName n2
    (by intro h; rw [h] at hv2; simp at hv2) hc2 hu2
  rw [← h1, ← h2, heq]

/-- Witness for `module_name_injective_on_canonical` at the concrete
pair `MainScreen`, `MainScreen`. -/
theorem module_name_injective_on_canonical_witness :
    "MainScreen".toList = "MainScreen".toList :=
  module_name_injective_on_canonical "MainScreen".toList "MainScreen".toList
    (by decide) (by decide) (by decide) (by decide) (by decide) (by decide)
    (by decide) (by decide) (by decide)

lemma mem_of_getLast?_eq (l : List Char) (c : Char) (h : l.getLast? = some c) :
    c ∈ l := by
  obtain ⟨hne, he⟩ := List.mem_getLast?_eq_getLast (l := l) (x := c) h
  rw [he]
  exact List.getLast_mem hne

lemma posixJoin3_view (name file : PyStr) (hne : name ≠ [])
    (hslash : '/' ∉ name) (hfile : ∀ c, file.head? = some c → c ≠ '/') :
    posixJoin3 "./View".toList name file =
      "./View/".toList ++ name ++ '/' :: file := by
  have hhead : ¬ name.head? = some '/' := fun h =>
    hslash (List.mem_of_mem_head? (by rw [h]; rfl))
  have hlast : ¬ name.getLast? = some '/' := fun h =>
    hslash (mem_of_getLast?_eq name '/' h)
  have hassoc : "./View".toList ++ '/' :: name =
      ("./View".toList ++ ['/']) ++ name := by simp
  unfold posixJoin3 posixJoin
  rw [if_neg hhead, if_neg (by decide : ¬("./View".toList = ([] : PyStr))),
    if_neg (by decide : ¬("./View".toList.getLast? = some '/'))]
  rw [if_neg (fun hc => hfile '/' hc rfl),
    if_neg (by simp : ¬("./View".toList ++ '/' :: name = [])),
    if_neg (by
      rw [hassoc, List.getLast?_append_of_ne_nil _ hne]
      exact hlast)]
  have hv : "./View/".toList = "./View".toList ++ ['/'] := by decide
  rw [hv]
  simp

lemma intercalate_head (sep : PyStr) (x : PyStr) (xs : List PyStr) :
    ∃ z, List.intercalate sep (x :: xs) = x ++ z := by
  cases xs with
  | nil => exact ⟨[], by simp [List.intercalate]⟩
  | cons y tl =>
    refine ⟨sep ++ List.intercalate sep (y :: tl), ?_⟩
    simp [List.intercalate]

lemma moduleNameOf_head_lower (res : List (List Char)) (hd : Char)
    (rest : List Char) (ts : List (List Char))
    (hres : res = (hd :: rest) :: ts) (hh : isUpper hd = true) :
    ∃ z, moduleNameOf res = pyLower hd :: z := by
  subst hres
  unfold moduleNameOf pyJoin
  obtain ⟨z, hz⟩ := intercalate_head ['_'] (lowerStr (hd :: rest))
    (ts.map lowerStr)
  rw [List.map_cons, hz]
  exact ⟨rest.map pyLower ++ z, by simp [lowerStr]⟩

lemma pyLower_ne_slash (c : Char) (h : isUpper c = true) : pyLower c ≠ '/' := by
  intro hc
  have := pyLower_toNat c h
  rw [hc] at this
  have hb := isUpper_toNat_bounds c h
  have h47 : ('/' : Char).toNat = 47 := by decide
  rw [h47] at this
  omega

/-- Modelled from the claim wording of C1: the registry key of a screen
subdirectory is the space-join of its lower-cased tokens. -/
def specScreenKey (name : PyStr) : PyStr :=
  pyJoin [' '] ((findTokens name).map lowerStr)

/-- Modelled from the claim wording of C1: the `kv` path of a screen
subdirectory is `./View/<ScreenName>/<module_name>.kv` with posix
separators. -/
def specKvPath (name : PyStr) : PyStr :=
  "./View/".toList ++ name ++ '/' ::
    (moduleNameOf (findTokens name) ++ ".kv".toList)

/-- Modelled from the claim wording of C1: one entry per subdirectory
passing the two-token `Screen`-suffix filter, keyed by `specScreenKey`,
with `kv` equal to `specKvPath`; nothing for failing entries. -/
def specRegistryEntries (listing : Listing) : List PyStr :=
  (listing.filter
    (fun e => e.2 && decide (screenDirFilter (findTokens e.1)))).map
    (fun e => screen_entry_tmpl (specScreenKey e.1)
      (e.1 ++ "Model".toList) (e.1 ++ "Controller".toList)
      (e.1 ++ "View".toList) (q2 (specKvPath e.1)))

lemma screen_entry_eq_spec (name : PyStr)
    (hpass : screenDirFilter (findTokens name)) (hslash : '/' ∉ name) :
    screen_entry_for name (findTokens name) =
      screen_entry_tmpl (specScreenKey name) (name ++ "Model".toList)
        (name ++ "Controller".toList) (name ++ "View".toList)
        (q2 (specKvPath name)) := by
  obtain ⟨hne, _, _⟩ := hpass
  obtain ⟨t, ts, hts⟩ : ∃ t ts, findTokens name = t :: ts := by
    cases h : findTokens name with
    | nil => exact absurd h hne
    | cons t ts => exact ⟨t, ts, rfl⟩
  obtain ⟨hd, rest, hsh, hh, _⟩ := shape_findTokens name t (by simp [hts])
  have hname_ne : name ≠ [] := by
    intro h
    rw [h] at hts
    simp [findTokens, findTokensGo] at hts
  unfold screen_entry_for
  congr 1
  · unfold specScreenKey
    rw [lowerStr_pyJoin [' '] (by decide)]
  · unfold specKvPath
    congr 1
    rw [lowerStr_pyJoin ['_'] (by decide)]
    have hmod : lowerStr (pyJoin ['_'] (findTokens name)) =
        moduleNameOf (findTokens name) := by
      rw [lowerStr_pyJoin ['_'] (by decide)]; rfl
    obtain ⟨z, hz⟩ := moduleNameOf_head_lower (findTokens name) hd rest ts
      (by rw [hts, hsh]) hh
    rw [show pyJoin ['_'] (List.map lowerStr (findTokens name)) =
      moduleNameOf (findTokens name) from rfl]
    apply posixJoin3_view name _ hname_ne hslash
    intro c hc he
    rw [hz] at hc
    simp only [List.cons_append, List.head?_cons, Option.some.injEq] at hc
    exact pyLower_ne_slash hd hh (hc ▸ he)

lemma screens_body_foldl_general (listing : Listing) :
    ∀ acc : PyStr,
      listing.foldl
        (fun screens e =>
          if e.2 then
            let res := findTokens e.1
            if screenDirFilter res then screens ++ screen_entry_for e.1 res
            else screens
          else screens) acc =
      acc ++ (listing.map (fun e =>
        if e.2 ∧ screenDirFilter (findTokens e.1) then
          screen_entry_for e.1 (findTokens e.1) else [])).flatten := by
  induction listing with
  | nil => intro acc; simp
  | cons e tl ih =>
    intro acc
    rw [List.foldl_cons, List.map_cons, List.flatten_cons]
    by_cases h2 : e.2 = true
    · by_cases hf : screenDirFilter (findTokens e.1)
      · simp only [h2, if_true, hf, ih, true_and]
        simp [List.append_assoc]
      · simp only [h2, if_true, hf, if_false, ih, true_and]
        simp
    · simp only [Bool.not_eq_true] at h2
      simp only [h2, Bool.false_eq_true, if_false, ih, false_and]
      simp

lemma map_filter_spec (listing : Listing) (hnames : ∀ e ∈ listing, '/' ∉ e.1) :
    (listing.map (fun e =>
      if e.2 ∧ screenDirFilter (findTokens e.1) then
        screen_entry_for e.1 (findTokens e.1) else [])).flatten =
    (specRegistryEntries listing).flatten := by
  induction listing with
  | nil => simp [specRegistryEntries]
  | cons e tl ih =>
    have hname := hnames e (by simp)
    have ihtl := ih (fun x hx => hnames x (by simp [hx]))
    unfold specRegistryEntries at ihtl ⊢
    rw [List.map_cons, List.flatten_cons, List.filter_cons]
    by_cases hc : e.2 = true ∧ screenDirFilter (findTokens e.1)
    · rw [if_pos hc, hc.1]
      simp only [Bool.true_and, decide_eq_true_eq, hc.2, if_pos, List.map_cons,
        List.flatten_cons]
      rw [screen_entry_eq_spec e.1 hc.2 hname, ihtl]
    · rw [if_neg hc]
      have : (e.2 && decide (screenDirFilter (findTokens e.1))) = false := by
        rcases Decidable.not_and_iff_or_not.mp hc with h | h
        · have h2 : e.2 = false := by simpa using h
          simp [h2]
        · simp [h]
      rw [this]
      simp only [Bool.false_eq_true, if_false, List.nil_append]
      exact ihtl

/-- Claim C1 — the regenerated registry body.  For any directory listing
of the `View` folder (directory-entry names contain no `/`), the body
string built by `add_view.update_screens_data` and by
`remove_view.update_screens_data` is exactly the concatenation of one
entry per subdirectory passing the two-token `Screen`-suffix filter —
keyed by the space-joined lower-cased tokens, with `kv` equal to
`./View/<ScreenName>/<module_name>.kv` in posix form — and contains no
entry derived from entries failing the filter. -/
theorem registry_body_spec (listing : Listing)
    (hnames : ∀ e ∈ listing, '/' ∉ e.1) :
    AddView.screens_body listing = (specRegistryEntries listing).flatten ∧
    RemoveView.screens_body listing = (specRegistryEntries listing).flatten := by
  constructor
  · unfold AddView.screens_body
    rw [screens_body_foldl_general listing [], map_filter_spec listing hnames]
    simp
  · unfold RemoveView.screens_body
    rw [screens_body_foldl_general listing [], map_filter_spec listing hnames]
    simp

/-- Witness for `registry_body_spec` on a concrete listing containing a
valid screen directory, a support directory that fails the filter, and a
file entry. -/
theorem registry_body_spec_witness :
    AddView.screens_body
        [("MainScreen".toList, true), ("components".toList, true),
         ("screens.py".toList, false)] =
      (specRegistryEntries
        [("MainScreen".toList, true), ("components".toList, true),
         ("screens.py".toList, false)]).flatten ∧
    RemoveView.screens_body
        [("MainScreen".toList, true), ("components".toList, true),
         ("screens.py".toList, false)] =
      (specRegistryEntries
        [("MainScreen".toList, true), ("components".toList, true),
         ("screens.py".toList, false)]).flatten :=
  registry_body_spec
    [("MainScreen".toList, true), ("components".toList, true),
     ("screens.py".toList, false)] (by decide)

/-- Claim C10 — the two body-derivation loops.  The loop in
`add_view.update_screens_data` and the loop in
`remove_view.update_screens_data` compute identical body strings on
every identical listing of `View` subdirectories: the add and remove
operations share one equivalent body-derivation routine. -/
theorem screens_body_add_eq_remove (listing : Listing) :
    AddView.screens_body listing = RemoveView.screens_body listing := rfl

/-- `m` occurs in `l` as a contiguous substring. -/
def occursIn (m l : PyStr) : Prop := ∃ s t, l = s ++ m ++ t

lemma isPrefixOf_ex (m : PyStr) :
    ∀ l : PyStr, m.isPrefixOf l = true ↔ ∃ t, l = m ++ t := by
  induction m with
  | nil => intro l; simp [List.isPrefixOf]
  | cons c cs ih =>
    intro l
    cases l with
    | nil => simp [List.isPrefixOf]
    | cons d ds =>
      simp only [List.isPrefixOf, Bool.and_eq_true, beq_iff_eq, ih ds,
        List.cons_append, List.cons.injEq]
      constructor
      · rintro ⟨rfl, t, rfl⟩; exact ⟨t, rfl, rfl⟩
      · rintro ⟨t, rfl, rfl⟩; exact ⟨rfl, t, rfl⟩

/-- Boolean substring test, for concrete evaluation of `occursIn`. -/
def occursInB (m l : PyStr) : Bool :=
  (List.range (l.length + 1)).any (fun k => m.isPrefixOf (l.drop k))

lemma occursIn_iff (m l : PyStr) : occursIn m l ↔ occursInB m l = true := by
  unfold occursIn occursInB
  rw [List.any_eq_true]
  constructor
  · rintro ⟨s, t, rfl⟩
    refine ⟨s.length, ?_, ?_⟩
    · rw [List.mem_range]
      simp only [List.length_append]
      omega
    · rw [(isPrefixOf_ex m _).mpr ⟨t, ?_⟩]
      rw [List.append_assoc, List.drop_left]
  · rintro ⟨k, _, hk⟩
    obtain ⟨t, ht⟩ := (isPrefixOf_ex m _).mp hk
    refine ⟨l.take k, t, ?_⟩
    conv_lhs => rw [← List.take_append_drop k l, ht]
    simp

instance (m l : PyStr) : Decidable (occursIn m l) :=
  decidable_of_iff _ (occursIn_iff m l).symm

lemma findallImportsGo_occurs :
    ∀ (fuel : Nat) (cs m : PyStr), m ∈ findallImportsGo fuel cs →
      occursIn m cs := by
  intro fuel
  induction fuel with
  | zero => intro cs m h; simp [findallImportsGo] at h
  | succ n ih =>
    intro cs m h
    cases cs with
    | nil => simp [findallImportsGo] at h
    | cons c cs' =>
      rw [findallImportsGo] at h
      cases hm : matchAnyImport (c :: cs') with
      | none =>
        rw [hm] at h
        obtain ⟨s, t, ht⟩ := ih cs' m h
        exact ⟨c :: s, t, by simp [ht]⟩
      | some k =>
        rw [hm] at h
        rcases List.mem_cons.mp h with h1 | h1
        · exact ⟨[], (c :: cs').drop k, by
            rw [h1]
            simp [List.take_append_drop]⟩
        · obtain ⟨s, t, ht⟩ := ih _ m h1
          refine ⟨(c :: cs').take k ++ s, t, ?_⟩
          conv_lhs => rw [← List.take_append_drop k (c :: cs'), ht]
          simp

/-- Every string returned by the import-line extraction is a contiguous
substring of the scanned registry source. -/
lemma findallImports_occurs (text m : PyStr) (h : m ∈ findallImports text) :
    occursIn m text :=
  findallImportsGo_occurs text.length text m h

lemma notMem_pyRemove (l : List PyStr) (x : PyStr) (h : x ∉ l) :
    pyRemove l x = none := by
  simp [pyRemove, h]

lemma pyRemove_preserves_notMem (l l' : List PyStr) (x y : PyStr)
    (hp : pyRemove l y = some l') (hx : x ∉ l) : x ∉ l' := by
  unfold pyRemove at hp
  by_cases hy : y ∈ l
  · rw [if_pos hy] at hp
    injection hp with hp
    subst hp
    exact fun hm => hx (List.mem_of_mem_erase hm)
  · rw [if_neg hy] at hp
    cases hp

/-- Claim C3 (amended) — missing import line on remove.  When any of the
three expected import lines for the screen being removed does not occur
in the registry source text, `remove_view.update_screens_data` raises
`ValueError` (from Python's `list.remove`) before the write is reached,
so the registry file is left unchanged; it never writes a partial import
list out of sync with the body. -/
theorem remove_update_missing_import_fails (text : PyStr)
    (listing : Listing) (name_view module_name : PyStr)
    (h : ¬ occursIn (modelImportLine module_name name_view) text ∨
         ¬ occursIn (controllerImportLine module_name name_view) text ∨
         ¬ occursIn (viewImportLine name_view module_name) text) :
    RemoveView.update_screens_data text listing name_view module_name =
      .error .valueError := by
  have find_not : ∀ x : PyStr, ¬ occursIn x text →
      x ∉ findallImports text :=
    fun x hx hm => hx (findallImports_occurs text x hm)
  simp only [RemoveView.update_screens_data]
  rcases h with h | h | h
  · rw [notMem_pyRemove _ _ (find_not _ h)]
  · cases hp : pyRemove (findallImports text)
        (modelImportLine module_name name_view) with
    | none => rfl
    | some i1 =>
      dsimp only
      rw [notMem_pyRemove i1 _
        (pyRemove_preserves_notMem _ i1 _ _ hp (find_not _ h))]
  · cases hp : pyRemove (findallImports text)
        (modelImportLine module_name name_view) with
    | none => rfl
    | some i1 =>
      dsimp only
      cases hp2 : pyRemove i1
          (controllerImportLine module_name name_view) with
      | none => rfl
      | some i2 =>
        dsimp only
        rw [notMem_pyRemove i2 _
          (pyRemove_preserves_notMem i1 i2 _ _ hp2
            (pyRemove_preserves_notMem _ i1 _ _ hp (find_not _ h)))]

/-- The spec scenario for C3: a registry source whose import section
covers Main/Settings/About but whose import line for the Settings
controller has been hand-deleted. -/
def settingsBrokenText : PyStr :=
  pyJoin "\n".toList
    [modelImportLine "main_screen".toList "MainScreen".toList,
     controllerImportLine "main_screen".toList "MainScreen".toList,
     viewImportLine "MainScreen".toList "main_screen".toList,
     modelImportLine "settings_screen".toList "SettingsScreen".toList,
     viewImportLine "SettingsScreen".toList "settings_screen".toList,
     modelImportLine "about_screen".toList "AboutScreen".toList,
     controllerImportLine "about_screen".toList "AboutScreen".toList,
     viewImportLine "AboutScreen".toList "about_screen".toList] ++
  "\n\nscreens = \x7b\x7d".toList

/-- Counterexample to claim C3 as stated: on the spec's own scenario the
remove-path synchronizer fails with Python's `ValueError` (raised by
`list.remove`), not with a `RegistryConsistencyError` — no such error
type exists anywhere in the code. -/
theorem remove_missing_import_raises_valueerror :
    RemoveView.update_screens_data settingsBrokenText
        [("MainScreen".toList, true), ("AboutScreen".toList, true)]
        "SettingsScreen".toList "settings_screen".toList =
      .error .valueError ∧
    PyError.valueError ≠ PyError.registryConsistencyError := by
  constructor
  · decide
  · decide

/-- Witness for `remove_update_missing_import_fails` at the concrete
broken-registry scenario. -/
theorem remove_update_missing_import_fails_witness :
    RemoveView.update_screens_data settingsBrokenText []
        "SettingsScreen".toList "settings_screen".toList =
      .error .valueError :=
  remove_update_missing_import_fails settingsBrokenText []
    "SettingsScreen".toList "settings_screen".toList
    (Or.inr (Or.inl (by decide)))

lemma isPrefixOf_append {α : Type} [BEq α] [LawfulBEq α] (l r : List α) :
    l.isPrefixOf (l ++ r) = true := by
  induction l with
  | nil => simp [List.isPrefixOf]
  | cons c cs ih => simp [List.isPrefixOf, ih]

lemma existsAt_of_mem_listdir (fs : List FsNode) (d : List PyStr)
    (name : PyStr) (h : name ∈ listdirAt fs d) :
    existsAt fs (d ++ [name]) = true := by
  unfold listdirAt at h
  obtain ⟨nd, hnd, hmatch⟩ := List.mem_filterMap.mp h
  have hpath : nd.path = d ++ [name] := by
    cases hdrop : nd.path.drop d.length with
    | nil => rw [hdrop] at hmatch; cases hmatch
    | cons x tl =>
      cases tl with
      | cons y tl2 => rw [hdrop] at hmatch; cases hmatch
      | nil =>
        rw [hdrop] at hmatch
        dsimp only at hmatch
        by_cases htake : nd.path.take d.length = d
        · rw [if_pos htake] at hmatch
          injection hmatch with hmatch
          subst hmatch
          rw [← List.take_append_drop d.length nd.path, hdrop, htake]
        · rw [if_neg htake] at hmatch; cases hmatch
  unfold existsAt
  rw [List.any_eq_true]
  exact ⟨nd, hnd, by simp [hpath]⟩

lemma rmtree_removes_subtree (fs : List FsNode) (p q : List PyStr)
    (rest : List PyStr) (hq : q = p ++ rest) (hex : existsAt fs p = true) :
    ∃ fs1, rmtree fs p = .ok fs1 ∧ osRemove fs1 q = .error .fileNotFoundError := by
  refine ⟨fs.filter (fun nd => !(p.isPrefixOf nd.path)), ?_, ?_⟩
  · unfold rmtree
    rw [if_pos hex]
  · unfold osRemove
    rw [List.find?_eq_none.mpr ?_]
    intro nd hnd
    have hf := (List.mem_filter.mp hnd).2
    simp only [Bool.not_eq_true', decide_eq_true_eq] at hf ⊢
    intro hpath
    rw [hpath, hq] at hf
    rw [isPrefixOf_append p rest] at hf
    cases hf

lemma remove_view_crash_of_exists (fs : List FsNode)
    (name_view module_name : PyStr)
    (hex : existsAt fs [viewSeg, name_view] = true) :
    (RemoveView.remove_view fs name_view module_name).2 =
      some PyError.fileNotFoundError := by
  obtain ⟨fs1, hrm, hos⟩ := rmtree_removes_subtree fs [viewSeg, name_view]
    ([viewSeg, name_view] ++ ["Controller".toList, "components".toList])
    ["Controller".toList, "components".toList] rfl hex
  simp only [RemoveView.remove_view]
  rw [hrm]
  dsimp only
  rw [hos]

lemma remove_main_crash (s : ProjState) (name_view : PyStr)
    (hroot : existsAt s.fs [] = true)
    (hsuffix : lastSix name_view = screenTok)
    (hmem : name_view ∈ listdirAt s.fs [viewSeg])
    (hcamel : pyFalsy (check_camel_case_name_project name_view) = false) :
    (RemoveView.main s name_view).2 = some PyError.fileNotFoundError ∧
    (RemoveView.main s name_view).1.registry = s.registry := by
  have hex : existsAt s.fs [viewSeg, name_view] = true :=
    existsAt_of_mem_listdir s.fs [viewSeg] name_view hmem
  have hmain : RemoveView.main s name_view =
      ({ s with fs := (RemoveView.remove_view s.fs name_view
          (moduleNameOf ((check_camel_case_name_project name_view).getD []))).1 },
        some PyError.fileNotFoundError) := by
    simp only [RemoveView.main]
    rw [if_neg (fun hc => hc hroot), if_neg (fun hc => hc hsuffix),
      if_neg (fun hc => hc hmem), if_neg (by simp [hcamel])]
    have hpair : RemoveView.remove_view s.fs name_view
        (moduleNameOf ((check_camel_case_name_project name_view).getD [])) =
        ((RemoveView.remove_view s.fs name_view
          (moduleNameOf ((check_camel_case_name_project name_view).getD []))).1,
         some PyError.fileNotFoundError) := by
      rw [← remove_view_crash_of_exists s.fs name_view
        (moduleNameOf ((check_camel_case_name_project name_view).getD [])) hex]
    rw [hpair]
  exact ⟨by rw [hmain], by rw [hmain]⟩

/-- Claim C4 — the remove-path filesystem bug.  After a successful
`rmtree(View/<name>)`, the two `os.remove` targets
(`View/<name>/Controller/components`, `View/<name>/Model/<module>`) lie
inside the directory just deleted — both paths extend the deleted path —
so `remove_view` always ends in `FileNotFoundError`; consequently, on
any project state whose validations pass, `remove_view.main` aborts with
`FileNotFoundError` and `update_screens_data` is never reached: the
registry file keeps its previous content. -/
theorem remove_view_always_crashes (s : ProjState) (name_view : PyStr)
    (hroot : existsAt s.fs [] = true)
    (hsuffix : lastSix name_view = screenTok)
    (hmem : name_view ∈ listdirAt s.fs [viewSeg])
    (hcamel : pyFalsy (check_camel_case_name_project name_view) = false) :
    (∀ module_name : PyStr,
      ([viewSeg, name_view]).isPrefixOf
        ([viewSeg, name_view] ++
          ["Controller".toList, "components".toList]) = true ∧
      ([viewSeg, name_view]).isPrefixOf
        ([viewSeg, name_view] ++ ["Model".toList, module_name]) = true ∧
      (RemoveView.remove_view s.fs name_view module_name).2 =
        some PyError.fileNotFoundError) ∧
    (RemoveView.main s name_view).2 = some PyError.fileNotFoundError ∧
    (RemoveView.main s name_view).1.registry = s.registry := by
  have hex : existsAt s.fs [viewSeg, name_view] = true :=
    existsAt_of_mem_listdir s.fs [viewSeg] name_view hmem
  exact ⟨fun module_name => ⟨isPrefixOf_append _ _, isPrefixOf_append _ _,
    remove_view_crash_of_exists s.fs name_view module_name hex⟩,
    (remove_main_crash s name_view hroot hsuffix hmem hcamel).1,
    (remove_main_crash s name_view hroot hsuffix hmem hcamel).2⟩

/-- Witness for `remove_view_always_crashes` on a small concrete
project. -/
theorem remove_view_always_crashes_witness :
    (RemoveView.main
      { fs := [⟨[], true⟩, ⟨[viewSeg], true⟩,
               ⟨[viewSeg, "MainScreen".toList], true⟩],
        registry := [] } "MainScreen".toList).2 =
      some PyError.fileNotFoundError :=
  (remove_view_always_crashes
    { fs := [⟨[], true⟩, ⟨[viewSeg], true⟩,
             ⟨[viewSeg, "MainScreen".toList], true⟩],
      registry := [] } "MainScreen".toList
    (by decide) (by decide) (by decide) (by decide)).2.1

/-- Claim C5 — validation before mutation.  Whenever any of the
validations fails (project root missing, name without the `Screen`
suffix, duplicate view directory on add / missing view directory on
remove, or a name tokenizing to fewer than two tokens — which is exactly
when the camel-case check is falsy), both `main` functions abort with
the `parser.error` exit and return the project state unchanged: no
filesystem mutation and no registry write happen before the validation
failure is reported. -/
theorem validation_aborts_before_mutation (s : ProjState) (name_view : PyStr) :
    (pyFalsy (check_camel_case_name_project name_view) = true ↔
      (findTokens name_view).length < 2) ∧
    ((¬ existsAt s.fs [] = true ∨ lastSix name_view ≠ screenTok ∨
      name_view ∈ listdirAt s.fs [viewSeg] ∨
      pyFalsy (check_camel_case_name_project name_view) = true) →
      AddView.main s name_view = (s, some PyError.systemExit)) ∧
    ((¬ existsAt s.fs [] = true ∨ lastSix name_view ≠ screenTok ∨
      name_view ∉ listdirAt s.fs [viewSeg] ∨
      pyFalsy (check_camel_case_name_project name_view) = true) →
      RemoveView.main s name_view = (s, some PyError.systemExit)) := by
  refine ⟨?_, ?_, ?_⟩
  · unfold pyFalsy check_camel_case_name_project
    by_cases h1 : (findTokens name_view).length = 1
    · simp [h1]
    · rw [if_neg h1]
      simp only [List.isEmpty_iff]
      constructor
      · intro h; rw [h]; simp
      · intro h
        have h0 : (findTokens name_view).length = 0 := by omega
        exact List.length_eq_zero.mp h0
  · intro h
    rcases h with hc | hc | hc | hc
    · simp only [AddView.main]
      rw [if_pos hc]
    · simp only [AddView.main]
      by_cases h1 : existsAt s.fs [] = true
      · rw [if_neg (fun hx => hx h1), if_pos hc]
      · rw [if_pos h1]
    · simp only [AddView.main]
      by_cases h1 : existsAt s.fs [] = true
      · by_cases h2 : lastSix name_view = screenTok
        · rw [if_neg (fun hx => hx h1), if_neg (fun hx => hx h2), if_pos hc]
        · rw [if_neg (fun hx => hx h1), if_pos h2]
      · rw [if_pos h1]
    · simp only [AddView.main]
      by_cases h1 : existsAt s.fs [] = true
      · by_cases h2 : lastSix name_view = screenTok
        · by_cases h3 : name_view ∈ listdirAt s.fs [viewSeg]
          · rw [if_neg (fun hx => hx h1), if_neg (fun hx => hx h2),
              if_pos h3]
          · rw [if_neg (fun hx => hx h1), if_neg (fun hx => hx h2),
              if_neg h3, if_pos hc]
        · rw [if_neg (fun hx => hx h1), if_pos h2]
      · rw [if_pos h1]
  · intro h
    rcases h with hc | hc | hc | hc
    · simp only [RemoveView.main]
      rw [if_pos hc]
    · simp only [RemoveView.main]
      by_cases h1 : existsAt s.fs [] = true
      · rw [if_neg (fun hx => hx h1), if_pos hc]
      · rw [if_pos h1]
    · simp only [RemoveView.main]
      by_cases h1 : existsAt s.fs [] = true
      · by_cases h2 : lastSix name_view = screenTok
        · rw [if_neg (fun hx => hx h1), if_neg (fun hx => hx h2), if_pos hc]
        · rw [if_neg (fun hx => hx h1), if_pos h2]
      · rw [if_pos h1]
    · simp only [RemoveView.main]
      by_cases h1 : existsAt s.fs [] = true
      · by_cases h2 : lastSix name_view = screenTok
        · by_cases h3 : name_view ∈ listdirAt s.fs [viewSeg]
          · rw [if_neg (fun hx => hx h1), if_neg (fun hx => hx h2),
              if_neg (fun hx => hx h3), if_pos hc]
          · rw [if_neg (fun hx => hx h1), if_neg (fun hx => hx h2),
              if_pos h3]
        · rw [if_neg (fun hx => hx h1), if_pos h2]
      · rw [if_pos h1]


/-- Witness for `validation_aborts_before_mutation`: a name without the
`Screen` suffix aborts an add on a concrete project state, leaving the
state unchanged. -/
theorem validation_aborts_before_mutation_witness :
    AddView.main { fs := [⟨[], true⟩, ⟨[viewSeg], true⟩], registry := [] }
        "Badname".toList =
      ({ fs := [⟨[], true⟩, ⟨[viewSeg], true⟩], registry := [] },
        some PyError.systemExit) :=
  (validation_aborts_before_mutation
    { fs := [⟨[], true⟩, ⟨[viewSeg], true⟩], registry := [] }
    "Badname".toList).2.1 (Or.inr (Or.inl (by decide)))

/-- A concrete project state with one existing screen `MainScreen` and a
registry file holding exactly the creation-time text for it. -/
def demoProject : ProjState :=
  { fs := [⟨[], true⟩, ⟨[viewSeg], true⟩,
           ⟨[viewSeg, "MainScreen".toList], true⟩,
           ⟨[viewSeg, "screens.py".toList], false⟩,
           ⟨["Model".toList], true⟩, ⟨["Controller".toList], true⟩],
    registry := CreateProject.create_module_screens_text
      [("MainScreen".toList, "main_screen".toList)] }

/-- Claim C2 evaluated on the code (code bug).  Running
`addScreen("FooScreen")` on `demoProject` succeeds and rewrites the
registry, but the following `removeScreen("FooScreen")` crashes with
`FileNotFoundError` inside `remove_view` (claim C4) before
`update_screens_data` runs: the registry text is left exactly as the add
wrote it and differs from the pre-add registry, so the add-then-remove
round trip does not restore the registry body. -/
theorem add_then_remove_does_not_restore_registry :
    (AddView.main demoProject "FooScreen".toList).2 = none ∧
    (RemoveView.main (AddView.main demoProject "FooScreen".toList).1
        "FooScreen".toList).2 = some PyError.fileNotFoundError ∧
    (RemoveView.main (AddView.main demoProject "FooScreen".toList).1
        "FooScreen".toList).1.registry =
      (AddView.main demoProject "FooScreen".toList).1.registry ∧
    (AddView.main demoProject "FooScreen".toList).1.registry ≠
      demoProject.registry := by
  refine ⟨by decide, ?_, ?_, by decide⟩
  · exact (remove_main_crash (AddView.main demoProject "FooScreen".toList).1
      "FooScreen".toList (by decide) (by decide) (by decide) (by decide)).1
  · exact (remove_main_crash (AddView.main demoProject "FooScreen".toList).1
      "FooScreen".toList (by decide) (by decide) (by decide) (by decide)).2

/-- The registry body that `remove_view.update_screens_data` would
regenerate from the post-remove directory listing equals the pre-add
body — the synchronizer itself restores the entries; it is the
`remove_view` crash that prevents it from running.  (Supporting fact for
the C2 divergence.) -/
theorem remove_resync_would_restore_body :
    RemoveView.screens_body
        (viewListing ((RemoveView.main
          (AddView.main demoProject "FooScreen".toList).1
          "FooScreen".toList).1.fs)) =
      RemoveView.screens_body (viewListing demoProject.fs) := by
  decide

/-- Replace each apostrophe by a double quote, leaving every other
character unchanged: the character-level correspondence between the
synchronizer's entry format and the creation-time generator's. -/
def swapQuote (c : Char) : Char := if c = squote then '"' else c

lemma map_swapQuote_id (s : PyStr) (h : squote ∉ s) :
    s.map swapQuote = s := by
  induction s with
  | nil => rfl
  | cons c cs ih =>
    rw [List.map_cons, ih (fun hm => h (by simp [hm]))]
    have hc : c ≠ squote := fun he => h (by simp [he])
    rw [swapQuote, if_neg hc]

lemma mem_of_mem_dropWhile (p : Char → Bool) (l : List Char) (c : Char)
    (h : c ∈ l.dropWhile p) : c ∈ l := by
  induction l with
  | nil => simpa [List.dropWhile] using h
  | cons d ds ih =>
    rw [List.dropWhile_cons] at h
    by_cases hp : p d = true
    · rw [if_pos hp] at h
      exact List.mem_cons_of_mem d (ih h)
    · rw [if_neg hp] at h
      exact h

lemma token_chars_mem (name : PyStr) (t : List Char) (c : Char)
    (ht : t ∈ findTokens name) (hc : c ∈ t) : c ∈ name := by
  have hmem : c ∈ (findTokens name).flatten := List.mem_flatten.mpr ⟨t, ht, hc⟩
  rw [flatten_findTokens name] at hmem
  exact mem_of_mem_dropWhile _ name c hmem

lemma pyLower_ne_of_lt (c x : Char) (hx : x.toNat < 97) (hne : c ≠ x) :
    pyLower c ≠ x := by
  cases hu : isUpper c with
  | false => rw [pyLower_eq_self c hu]; exact hne
  | true =>
    intro he
    have hl := pyLower_toNat c hu
    rw [he] at hl
    have hb := isUpper_toNat_bounds c hu
    omega

lemma mem_pyJoin (sep : PyStr) :
    ∀ (ls : List PyStr) (c : Char), c ∈ pyJoin sep ls →
      c ∈ sep ∨ ∃ l ∈ ls, c ∈ l
  | [], c, h => by simp [pyJoin, List.intercalate] at h
  | [x], c, h => by
    simp only [pyJoin, List.intercalate] at h
    right
    exact ⟨x, by simp, by simpa using h⟩
  | x :: y :: tl, c, h => by
    have hstep : pyJoin sep (x :: y :: tl) =
        x ++ sep ++ pyJoin sep (y :: tl) := by
      simp [pyJoin, List.intercalate]
    rw [hstep] at h
    rcases List.mem_append.mp h with h1 | h1
    · rcases List.mem_append.mp h1 with h2 | h2
      · exact Or.inr ⟨x, by simp, h2⟩
      · exact Or.inl h2
    · rcases mem_pyJoin sep (y :: tl) c h1 with h2 | ⟨l, hl, hcl⟩
      · exact Or.inl h2
      · exact Or.inr ⟨l, by simp [hl], hcl⟩

lemma notin_lower_join (x : Char) (hx : x.toNat < 97) (sep : PyStr)
    (hsep : x ∉ sep) (res : List PyStr) (hres : ∀ t ∈ res, x ∉ t) :
    x ∉ pyJoin sep (res.map lowerStr) := by
  intro hmem
  rcases mem_pyJoin sep _ x hmem with h | ⟨l, hl, hcl⟩
  · exact hsep h
  · obtain ⟨t, ht, rfl⟩ := List.mem_map.mp hl
    obtain ⟨c, hc, hce⟩ := List.mem_map.mp hcl
    exact pyLower_ne_of_lt c x hx (fun he => hres t ht (he ▸ hc)) hce

lemma splitOn_moduleName (name : PyStr) (hne : findTokens name ≠ [])
    (hund : '_' ∉ name) :
    (moduleNameOf (findTokens name)).splitOn '_' =
      (findTokens name).map lowerStr := by
  have hlow_und : ∀ l ∈ (findTokens name).map lowerStr, '_' ∉ l := by
    intro l hl hc
    obtain ⟨t, ht, rfl⟩ := List.mem_map.mp hl
    obtain ⟨c, hcmem, hce⟩ := List.mem_map.mp hc
    have h95 : ('_' : Char).toNat = 95 := by decide
    exact pyLower_ne_of_lt c '_' (by omega)
      (fun he => hund (he ▸ token_chars_mem name t c ht hcmem)) hce
  unfold moduleNameOf pyJoin
  exact List.splitOn_intercalate ((findTokens name).map lowerStr) '_'
    hlow_und (by simpa using hne)

lemma map_swapQuote_tmpl (key n kvp : PyStr)
    (hkey : key.map swapQuote = key) (hn : n.map swapQuote = n)
    (hkvp : kvp.map swapQuote = kvp) :
    (screen_entry_tmpl key (n ++ "Model".toList) (n ++ "Controller".toList)
        (n ++ "View".toList) (q2 kvp)).map swapQuote =
      "\n    ".toList ++ q2 key ++ ": \x7b".toList ++
      "\n        ".toList ++ q2 "model".toList ++ ": ".toList ++
        n ++ "Model,".toList ++
      "\n        ".toList ++ q2 "controller".toList ++ ": ".toList ++
        n ++ "Controller,".toList ++
      "\n        ".toList ++ q2 "view".toList ++ ": ".toList ++
        n ++ "View,".toList ++
      "\n        ".toList ++ q2 "kv".toList ++ ": ".toList ++ q2 kvp ++
      "\n    \x7d,\n".toList := by
  have e1 : "\n    ".toList.map swapQuote = "\n    ".toList := by decide
  have e2 : ": \x7b".toList.map swapQuote = ": \x7b".toList := by decide
  have e3 : "\n        ".toList.map swapQuote = "\n        ".toList := by decide
  have e4 : ": ".toList.map swapQuote = ": ".toList := by decide
  have e5 : ",".toList.map swapQuote = ",".toList := by decide
  have e6 : "\n    \x7d,\n".toList.map swapQuote = "\n    \x7d,\n".toList := by
    decide
  have e7 : "model".toList.map swapQuote = "model".toList := by decide
  have e8 : "controller".toList.map swapQuote = "controller".toList := by decide
  have e9 : "view".toList.map swapQuote = "view".toList := by decide
  have e10 : "kv".toList.map swapQuote = "kv".toList := by decide
  have e11 : "Model".toList.map swapQuote = "Model".toList := by decide
  have e12 : "Controller".toList.map swapQuote = "Controller".toList := by
    decide
  have e13 : "View".toList.map swapQuote = "View".toList := by decide
  have esq : swapQuote squote = '"' := by decide
  have edq : swapQuote '"' = '"' := by decide
  have mM : ∀ r : PyStr, "Model".toList ++ (",".toList ++ r) =
      "Model,".toList ++ r := fun r => rfl
  have mC : ∀ r : PyStr, "Controller".toList ++ (",".toList ++ r) =
      "Controller,".toList ++ r := fun r => rfl
  have mV : ∀ r : PyStr, "View".toList ++ (",".toList ++ r) =
      "View,".toList ++ r := fun r => rfl
  simp only [screen_entry_tmpl, q1, q2, List.map_append, List.map_cons,
    List.map_nil, List.cons_append, List.nil_append, esq, edq,
    e1, e2, e3, e4, e5, e6, e7, e8, e9, e10, e11, e12, e13,
    hkey, hn, hkvp]
  simp only [List.append_assoc, List.cons_append, List.nil_append, mM, mC, mV]

/-- Counterexample to claim C9 as stated: for the same single-screen set
`{MainScreen}` the registry text written by the add-synchronizer differs
from the creation-time artifact (quote style of keys and field names,
comment wording `screen's` vs `screens`, blank-line layout, and trailing
newline), so the format is not reproduced bit-for-bit. -/
theorem sync_text_differs_from_creation :
    AddView.update_screens_data [] [("MainScreen".toList, true)]
        "MainScreen".toList "main_screen".toList ≠
      CreateProject.create_module_screens_text
        [("MainScreen".toList, "main_screen".toList)] := by
  decide

/-- Claim C9 (amended) — the synchronizer reproduces the creation-time
entry format up to quoting style and whitespace: mapping each apostrophe
to a double quote turns the entry emitted by the add/remove
synchronizers into exactly the entry the creation-time generator emits
for the same screen, and the three import lines the add-synchronizer
appends are letter-for-letter the lines the creation-time generator
writes.  (The surrounding file template still differs: comment wording,
blank lines and trailing newline — see the counterexample.) -/
theorem sync_entry_matches_creation_up_to_quotes (name : PyStr)
    (hpass : screenDirFilter (findTokens name))
    (hund : '_' ∉ name) (hsq : squote ∉ name) (hslash : '/' ∉ name) :
    (screen_entry_for name (findTokens name)).map swapQuote =
      CreateProject.screens_data_fragment name
        (moduleNameOf (findTokens name)) ∧
    CreateProject.screens_imports_fragment name
        (moduleNameOf (findTokens name)) =
      modelImportLine (moduleNameOf (findTokens name)) name ++ "\n".toList ++
        controllerImportLine (moduleNameOf (findTokens name)) name ++
        "\n".toList ++ viewImportLine name (moduleNameOf (findTokens name)) ++
        "\n".toList := by
  have hne : findTokens name ≠ [] := hpass.1
  have h39 : squote.toNat = 39 := by decide
  have hkey_nosq : squote ∉ pyJoin [' '] ((findTokens name).map lowerStr) :=
    notin_lower_join squote (by omega) [' '] (by decide) _
      (fun t ht hc => hsq (token_chars_mem name t squote ht hc))
  have hmod_nosq : squote ∉ moduleNameOf (findTokens name) := by
    unfold moduleNameOf
    exact notin_lower_join squote (by omega) ['_'] (by decide) _
      (fun t ht hc => hsq (token_chars_mem name t squote ht hc))
  have hpath_nosq : squote ∉ specKvPath name := by
    unfold specKvPath
    intro hmem
    have hcases : squote ∈ "./View/".toList ∨ squote ∈ name ∨ squote = '/' ∨
        squote ∈ moduleNameOf (findTokens name) ∨ squote ∈ ".kv".toList := by
      simpa [List.mem_append, List.mem_cons, or_assoc] using hmem
    rcases hcases with h | h | h | h | h
    · exact absurd h (by decide)
    · exact hsq h
    · exact absurd h (by decide)
    · exact hmod_nosq h
    · exact absurd h (by decide)
  have hsplit := splitOn_moduleName name hne hund
  obtain ⟨t, ts, hts⟩ : ∃ t ts, findTokens name = t :: ts := by
    cases h : findTokens name with
    | nil => exact absurd h hne
    | cons t ts => exact ⟨t, ts, rfl⟩
  obtain ⟨hd, rest, hsh, hh, _⟩ := shape_findTokens name t (by simp [hts])
  have hname_ne : name ≠ [] := by
    intro h
    rw [h] at hts
    simp [findTokens, findTokensGo] at hts
  obtain ⟨z, hz⟩ := moduleNameOf_head_lower (findTokens name) hd rest ts
    (by rw [hts, hsh]) hh
  have hkv2 : posixJoin3 "./View".toList name
      (moduleNameOf (findTokens name) ++ ".kv".toList) =
      "./View/".toList ++ name ++ '/' ::
        (moduleNameOf (findTokens name) ++ ".kv".toList) := by
    apply posixJoin3_view name _ hname_ne hslash
    intro c hc he
    rw [hz] at hc
    simp only [List.cons_append, List.head?_cons, Option.some.injEq] at hc
    exact pyLower_ne_slash hd hh (hc ▸ he)
  constructor
  · rw [screen_entry_eq_spec name hpass hslash]
    rw [map_swapQuote_tmpl (specScreenKey name) name (specKvPath name)
      (map_swapQuote_id _ hkey_nosq)
      (map_swapQuote_id name hsq) (map_swapQuote_id _ hpath_nosq)]
    unfold CreateProject.screens_data_fragment
    rw [hsplit, hkv2]
    rfl
  · rfl

/-- Witness for `sync_entry_matches_creation_up_to_quotes` at the
concrete screen `MainScreen`. -/
theorem sync_entry_matches_creation_witness :
    (screen_entry_for "MainScreen".toList
        (findTokens "MainScreen".toList)).map swapQuote =
      CreateProject.screens_data_fragment "MainScreen".toList
        (moduleNameOf (findTokens "MainScreen".toList)) :=
  (sync_entry_matches_creation_up_to_quotes "MainScreen".toList
    (by decide) (by decide) (by decide) (by decide)).1
